import Mathlib

/-!
# Verification of the ZillowBot mail-ingestion pipeline

Shallow embedding of `src/ZillowBot/utils.py`:

* `parse_message_for_listing` — the listing extractor.  The transport layers
  (RFC822 parsing, quoted-printable decoding, BeautifulSoup's HTML parsing)
  are abstracted: a raw message is modelled as its list of MIME parts, and
  the HTML body of a part as the list of document-order tags relevant to the
  extractor (`aria-label` attribute, first anchor descendant's `href`,
  `background` attribute, descendant text).
* `fetch_new_listings` — the polling pipeline, modelled as a deterministic
  state-transition function over an abstract mailbox whose entries carry
  fault-injection flags for `IMAP4.fetch` and `IMAP4.store`, producing an
  event trace, the list of yielded listings, and an optional fatal error.
-/

namespace ZillowBot

/-- An HTML tag as seen by the extractor: its `aria-label` attribute (if
present), the `href` of its first anchor descendant (`tag.a` — outer `none`
when the tag has no anchor descendant, inner `Option` because `a.get('href')`
may itself return `None`), its `background` attribute, and its text. -/
structure HtmlTag where
  ariaLabel : Option String
  anchorHref : Option (Option String)
  background : Option String
  text : String
  deriving DecidableEq, Repr

/-- One MIME part of a message: its content type and its decoded, parsed
HTML document (the tags carrying data the extractor might look at, in
document order). -/
structure MessagePart where
  contentType : String
  doc : List HtmlTag
  deriving DecidableEq, Repr

/-- The ways the extractor fails.  `noHtmlPart`: no part has content type
`text/html` (in the source, `body` is then unbound and the extractor raises).
`noAnchor`: a scanned "Property photo" tag has no anchor descendant, so
`tag.a` is `None` and `tag.a.get('href')` raises.  `missingFields`: a
recognized field was never populated and `ZillowListing(**listing_info)`
raises because the namedtuple declares no defaults. -/
inductive ExtractionError where
  | noHtmlPart
  | noAnchor
  | missingFields
  deriving DecidableEq, Repr

/-- The `ZillowListing` namedtuple, as populated by the extractor. `url` and
`image_url` hold attribute-lookup results which may be `None`; the three text
fields always hold strings. -/
structure ZillowListing where
  url : Option String
  image_url : Option String
  price : String
  facts : String
  address : String
  deriving DecidableEq, Repr

/-- The `listing_info` dictionary built up during the scan.  The outer
`Option` on each field records whether the key is present in the dict. -/
structure ListingInfo where
  url : Option (Option String)
  image_url : Option (Option String)
  price : Option String
  facts : Option String
  address : Option String
  deriving DecidableEq, Repr

/-- The empty `listing_info = {}` dictionary. -/
def ListingInfo.init : ListingInfo := ⟨none, none, none, none, none⟩

/-- Python's `str.startswith`: character-by-character prefix test. -/
def charsPrefix : List Char → List Char → Bool
  | [], _ => true
  | _ :: _, [] => false
  | c :: cs, d :: ds => c == d && charsPrefix cs ds

/-- `s.startswith(pre)`. -/
def startswith (s pre : String) : Bool := charsPrefix pre.data s.data

/-- Python's `str.strip()`: drop whitespace from both ends. -/
def strip (s : String) : String :=
  String.mk (((s.data.dropWhile Char.isWhitespace).reverse.dropWhile
    Char.isWhitespace).reverse)

/-- Strip zero-width non-joiner characters (U+200C), the source's
`.replace` of that single character with the empty string: every occurrence
is removed. -/
def stripZwnj (s : String) : String :=
  String.mk (s.data.filter fun c => !(c == '\u200C'))

/-- One iteration of the scan loop: classify `tag` by a prefix match on its
`aria-label` and update `listing_info`.  The photo branch errors when the tag
has no anchor descendant (`tag.a.get('href')` on `None`). -/
def classifyTag (info : ListingInfo) (tag : HtmlTag) :
    Except ExtractionError ListingInfo :=
  match tag.ariaLabel with
  | none => Except.ok info
  | some lbl =>
    if startswith lbl "Property photo" then
      match tag.anchorHref with
      | none => Except.error ExtractionError.noAnchor
      | some href =>
          Except.ok { info with url := some href, image_url := some tag.background }
    else if startswith lbl "Property price" then
      Except.ok { info with price := some (strip tag.text) }
    else if startswith lbl "Property facts" then
      Except.ok { info with facts := some (strip tag.text) }
    else if startswith lbl "Property address" then
      Except.ok { info with address := some (stripZwnj (strip tag.text)) }
    else
      Except.ok info

/-- The scan loop `for tag in html_doc.find_all(...)`, threading
`listing_info` through `classifyTag`; an exception aborts the loop. -/
def scanTags (info : ListingInfo) : List HtmlTag → Except ExtractionError ListingInfo
  | [] => Except.ok info
  | t :: ts =>
    match classifyTag info t with
    | Except.error e => Except.error e
    | Except.ok info1 => scanTags info1 ts

/-- The part-selection loop: the first part whose content type is
`text/html`. -/
def findHtmlPart : List MessagePart → Option MessagePart
  | [] => none
  | p :: ps => if p.contentType = "text/html" then some p else findHtmlPart ps

/-- `find_all(attrs={'aria-label': True}, limit=5)`: the first five tags in
document order that carry an `aria-label` attribute. -/
def scanList (p : MessagePart) : List HtmlTag :=
  (p.doc.filter fun t => t.ariaLabel.isSome).take 5

/-- `ZillowListing(**listing_info)`: the namedtuple declares all five fields
with no defaults, so construction fails unless every key is present. -/
def mkZillowListing (info : ListingInfo) : Except ExtractionError ZillowListing :=
  match info.url, info.image_url, info.price, info.facts, info.address with
  | some u, some i, some p, some f, some a => Except.ok ⟨u, i, p, f, a⟩
  | _, _, _, _, _ => Except.error ExtractionError.missingFields

/-- `parse_message_for_listing`: select the HTML part, scan its first five
labeled tags, and build the `ZillowListing`. -/
def parse_message_for_listing (parts : List MessagePart) :
    Except ExtractionError ZillowListing :=
  match findHtmlPart parts with
  | none => Except.error ExtractionError.noHtmlPart
  | some p =>
    match scanTags ListingInfo.init (scanList p) with
    | Except.error e => Except.error e
    | Except.ok info => mkZillowListing info

/-! ## The polling pipeline `fetch_new_listings`

The IMAP session is modelled as an abstract mailbox: a list of entries, one
per message, indexed by position (the message sequence number).  Each entry
carries the message content, its `\Seen` flag, and two fault-injection flags
saying whether `IMAP4.fetch` / `IMAP4.store` raises on that message.  One
poll cycle runs `search`, then processes each returned handle in order:
fetch, `parse_message_for_listing`, store `\Seen`, yield — with any raised
exception aborting the cycle (and the generator), exactly as in the source,
which wraps none of these calls in a handler. -/

/-- A stored email: envelope fields used by the search criteria, plus the
MIME parts seen by the extractor. -/
structure MailMessage where
  sender : String
  subject : String
  parts : List MessagePart
  deriving DecidableEq, Repr

/-- One mailbox slot: the message, its `\Seen` flag, and fault-injection
flags for the `fetch` and `store` round trips. -/
structure BoxEntry where
  msg : MailMessage
  seen : Bool
  fetchFails : Bool
  storeFails : Bool
  deriving DecidableEq, Repr

/-- The selected mailbox. -/
structure Mailbox where
  entries : List BoxEntry
  deriving DecidableEq, Repr

/-- The search criteria `(FROM "sender" SUBJECT "subject" UNSEEN)`: sender
equals, subject contains, seen flag clear. -/
def matchesCriteria (sender subject : String) (e : BoxEntry) : Bool :=
  decide (e.msg.sender = sender) && decide (subject.data <:+: e.msg.subject.data) && !e.seen

/-- `conn.search(None, criteria)`: the handles (positions) of matching
messages, in ascending order. -/
def search (mb : Mailbox) (sender subject : String) : List Nat :=
  (List.range mb.entries.length).filter fun i =>
    match mb.entries[i]? with
    | some e => matchesCriteria sender subject e
    | none => false

/-- `conn.store(msgnum, '+FLAGS', '\\Seen')` when it succeeds: set the
`\Seen` flag of entry `h`. -/
def markSeen (mb : Mailbox) (h : Nat) : Mailbox :=
  match mb.entries[h]? with
  | some e => ⟨mb.entries.set h { e with seen := true }⟩
  | none => mb

/-- Observable events of one run, in order. -/
inductive Event where
  | fetched (h : Nat)
  | extracted (h : Nat)
  | extractFailed (h : Nat) (e : ExtractionError)
  | marked (h : Nat)
  | emitted (h : Nat) (l : ZillowListing)
  deriving DecidableEq, Repr

/-- A fatal pipeline error: the exception that escapes the generator. -/
inductive PipelineError where
  | fetchError (h : Nat)
  | flagError (h : Nat)
  | extractionError (h : Nat) (e : ExtractionError)
  deriving DecidableEq, Repr

/-- Result of running (part of) a poll cycle: the mailbox afterwards, the
event trace, the `(handle, listing)` pairs yielded, and the escaping
exception if one was raised. -/
structure CycleOut where
  mb : Mailbox
  events : List Event
  outs : List (Nat × ZillowListing)
  err : Option PipelineError
  deriving DecidableEq, Repr

/-- The outcome of attempting one message, before any yield: `none` when
fetch, extraction and store all succeed, otherwise the exception raised. -/
def stepOutcome (mb : Mailbox) (h : Nat) : Option PipelineError :=
  match mb.entries[h]? with
  | none => some (PipelineError.fetchError h)
  | some e =>
    if e.fetchFails then some (PipelineError.fetchError h)
    else
      match parse_message_for_listing e.msg.parts with
      | Except.error ex => some (PipelineError.extractionError h ex)
      | Except.ok _ =>
          if e.storeFails then some (PipelineError.flagError h) else none

/-- The body of one poll cycle: process each searched handle in order —
`conn.fetch`, `parse_message_for_listing`, `conn.store`, `yield` — stopping
at the first raised exception, which escapes. -/
def runMsgs : Mailbox → List Nat → CycleOut
  | mb, [] => ⟨mb, [], [], none⟩
  | mb, h :: rest =>
    match mb.entries[h]? with
    | none => ⟨mb, [], [], some (PipelineError.fetchError h)⟩
    | some e =>
      if e.fetchFails then ⟨mb, [], [], some (PipelineError.fetchError h)⟩
      else
        match parse_message_for_listing e.msg.parts with
        | Except.error ex =>
            ⟨mb, [Event.fetched h, Event.extractFailed h ex], [],
              some (PipelineError.extractionError h ex)⟩
        | Except.ok l =>
          if e.storeFails then
            ⟨mb, [Event.fetched h, Event.extracted h], [],
              some (PipelineError.flagError h)⟩
          else
            let r := runMsgs (markSeen mb h) rest
            ⟨r.mb,
              Event.fetched h :: Event.extracted h :: Event.marked h ::
                Event.emitted h l :: r.events,
              (h, l) :: r.outs, r.err⟩

/-- One poll cycle of `fetch_new_listings`: search, then process every
match. -/
def pollCycle (mb : Mailbox) (sender subject : String) : CycleOut :=
  runMsgs mb (search mb sender subject)

/-- `n` poll cycles of the `while True` loop (an arbitrary finite prefix of
the infinite generator); a cycle's escaping exception ends the run. -/
def runCycles (sender subject : String) : Mailbox → Nat → CycleOut
  | mb, 0 => ⟨mb, [], [], none⟩
  | mb, n + 1 =>
    let c := pollCycle mb sender subject
    match c.err with
    | some e => ⟨c.mb, c.events, c.outs, some e⟩
    | none =>
      let r := runCycles sender subject c.mb n
      ⟨r.mb, c.events ++ r.events, c.outs ++ r.outs, r.err⟩

/-! ## Derived notions used to state the properties -/

/-- The classification a scanned tag receives from the `if/elif` chain. -/
inductive TagKind where
  | photo
  | price
  | facts
  | address
  | other
  deriving DecidableEq, Repr

/-- Which branch of the `if/elif` chain a tag takes. -/
def tagKind (t : HtmlTag) : TagKind :=
  match t.ariaLabel with
  | none => TagKind.other
  | some lbl =>
    if startswith lbl "Property photo" then TagKind.photo
    else if startswith lbl "Property price" then TagKind.price
    else if startswith lbl "Property facts" then TagKind.facts
    else if startswith lbl "Property address" then TagKind.address
    else TagKind.other

/-- All scanned tags of a given kind, in document order. -/
def kindFilter (k : TagKind) (ts : List HtmlTag) : List HtmlTag :=
  ts.filter fun t => tagKind t == k

/-- The last tag of a given kind, if any: the one whose dict assignment
survives the scan. -/
def lastOfKind (k : TagKind) : List HtmlTag → Option HtmlTag
  | [] => none
  | t :: ts =>
    match lastOfKind k ts with
    | some u => some u
    | none => if tagKind t == k then some t else none

/-- The flag of entry `h`, when `h` is a valid handle. -/
def seenAt (mb : Mailbox) (h : Nat) : Option Bool :=
  mb.entries[h]?.map BoxEntry.seen

/-- `h` can be processed to completion from `mb`: fetch succeeds, extraction
succeeds and the store round trip succeeds. -/
def procOk (mb : Mailbox) (h : Nat) : Bool :=
  (stepOutcome mb h).isNone

/-- The handle of a `fetched` event. -/
def fetchedHandle : Event → Option Nat
  | Event.fetched h => some h
  | _ => none

/-- The handle an event concerns. -/
def eventHandle : Event → Nat
  | Event.fetched h => h
  | Event.extracted h => h
  | Event.extractFailed h _ => h
  | Event.marked h => h
  | Event.emitted h _ => h

/-- The trace is a sequence of complete fetch–extract–mark–emit blocks, each
about a single handle, optionally ended by one partial block (a message whose
processing raised): no pipelining across messages. -/
def wellChunked : List Event → Bool
  | [] => true
  | Event.fetched h :: Event.extracted h1 :: Event.marked h2 ::
      Event.emitted h3 _ :: es =>
      h1 == h && h2 == h && h3 == h && wellChunked es
  | [Event.fetched _] => true
  | [Event.fetched h, Event.extractFailed h1 _] => h1 == h
  | [Event.fetched h, Event.extracted h1] => h1 == h
  | _ => false

/-- Scanning the trace left to right with the set `ms` of handles already
marked: every emission's handle must have been marked earlier. -/
def marksPrecedeEmits : List Event → List Nat → Bool
  | [], _ => true
  | Event.marked h :: es, ms => marksPrecedeEmits es (h :: ms)
  | Event.emitted h _ :: es, ms => ms.contains h && marksPrecedeEmits es ms
  | _ :: es, ms => marksPrecedeEmits es ms

/-- The marked-handle set after a trace. -/
def marksAfter : List Event → List Nat → List Nat
  | [], ms => ms
  | Event.marked h :: es, ms => marksAfter es (h :: ms)
  | _ :: es, ms => marksAfter es ms

/-! ## Concrete test fixtures

Small messages and mailboxes used as concrete inputs by the witnesses. -/

/-- A photo tag with an anchor and a background image. -/
def photoTag : HtmlTag :=
  ⟨some "Property photo 1", some (some "https://z/1"), some "https://img/1", "ph"⟩

/-- A photo tag with no anchor descendant. -/
def photoTagNoAnchor : HtmlTag := ⟨some "Property photo 2", none, none, "ph"⟩

/-- A price tag with surrounding whitespace in its text. -/
def priceTag : HtmlTag := ⟨some "Property price", none, none, " $2,000/mo "⟩

/-- A second, different price tag. -/
def priceTag2 : HtmlTag := ⟨some "Property price!", none, none, " $9 "⟩

/-- A facts tag. -/
def factsTag : HtmlTag := ⟨some "Property facts", none, none, " 2 bd, 1 ba "⟩

/-- An address tag whose text contains a zero-width non-joiner. -/
def addressTag : HtmlTag := ⟨some "Property address", none, none, " 1 Main\u200C St "⟩

/-- A labeled tag matching no recognized prefix. -/
def otherTag : HtmlTag := ⟨some "Decorative", none, none, "zzz"⟩

/-- A well-formed HTML part with one tag of each recognized kind. -/
def goodPart : MessagePart := ⟨"text/html", [photoTag, priceTag, factsTag, addressTag]⟩

/-- A non-HTML part. -/
def plainPart : MessagePart := ⟨"text/plain", []⟩

/-- An HTML part with no labeled tags at all. -/
def emptyHtmlPart : MessagePart := ⟨"text/html", []⟩

/-- An HTML part with two price tags among the first five labeled tags. -/
def dupPricePart : MessagePart :=
  ⟨"text/html", [photoTag, priceTag, priceTag2, factsTag, addressTag]⟩

/-- An HTML part whose photo tag has no anchor descendant. -/
def noAnchorPart : MessagePart :=
  ⟨"text/html", [photoTagNoAnchor, priceTag, factsTag, addressTag]⟩

/-- The listing extracted from `goodPart`. -/
def goodListing : ZillowListing :=
  ⟨some "https://z/1", some "https://img/1", "$2,000/mo", "2 bd, 1 ba", "1 Main St"⟩

/-- A matching, well-formed message. -/
def goodMsg : MailMessage := ⟨"zillow@z.com", "instant update", [goodPart]⟩

/-- A matching message with no HTML part. -/
def noHtmlMsg : MailMessage := ⟨"zillow@z.com", "instant update", [plainPart]⟩

/-- A mailbox holding one unseen poison message (extraction will fail). -/
def mbPoison : Mailbox := ⟨[⟨noHtmlMsg, false, false, false⟩]⟩

/-- A mailbox whose second of two unseen matching messages has no HTML
part. -/
def mbExtractFail : Mailbox :=
  ⟨[⟨goodMsg, false, false, false⟩, ⟨noHtmlMsg, false, false, false⟩]⟩

/-- A mailbox of three unseen matching messages where fetching the second
raises. -/
def mbFetchFail : Mailbox :=
  ⟨[⟨goodMsg, false, false, false⟩, ⟨goodMsg, false, true, false⟩,
    ⟨goodMsg, false, false, false⟩]⟩

/-! ## Lemmas about the extractor -/

/-- `classifyTag` acts according to the branch `tagKind` selects. -/
lemma classifyTag_eq (info : ListingInfo) (t : HtmlTag) :
    classifyTag info t =
      match tagKind t with
      | TagKind.photo =>
          match t.anchorHref with
          | none => Except.error ExtractionError.noAnchor
          | some href =>
              Except.ok { info with url := some href, image_url := some t.background }
      | TagKind.price => Except.ok { info with price := some (strip t.text) }
      | TagKind.facts => Except.ok { info with facts := some (strip t.text) }
      | TagKind.address => Except.ok { info with address := some (stripZwnj (strip t.text)) }
      | TagKind.other => Except.ok info := by
  unfold classifyTag tagKind
  cases t.ariaLabel with
  | none => rfl
  | some lbl => by_cases h1 : startswith lbl "Property photo" <;>
      by_cases h2 : startswith lbl "Property price" <;>
      by_cases h3 : startswith lbl "Property facts" <;>
      by_cases h4 : startswith lbl "Property address" <;>
      simp [h1, h2, h3, h4]

/-- Every failure of the scan loop is the unguarded anchor lookup. -/
lemma scanTags_error_eq (ts : List HtmlTag) :
    ∀ (info : ListingInfo) (e : ExtractionError),
      scanTags info ts = Except.error e → e = ExtractionError.noAnchor := by
  induction ts with
  | nil => intro info e h; simp [scanTags] at h
  | cons t ts ih =>
    intro info e h
    rw [scanTags, classifyTag_eq] at h
    cases hk : tagKind t <;> simp [hk] at h
    case photo =>
      cases ha : t.anchorHref <;> simp [ha] at h
      · exact h.symm
      · exact ih _ _ h
    all_goals exact ih _ _ h

/-- The scan loop completes exactly when every scanned photo tag has an
anchor descendant. -/
lemma scanTags_ok_iff (ts : List HtmlTag) :
    ∀ info : ListingInfo,
      (∃ info1, scanTags info ts = Except.ok info1) ↔
        (∀ t ∈ ts, tagKind t = TagKind.photo → t.anchorHref.isSome) := by
  induction ts with
  | nil => intro info; simp [scanTags]
  | cons t ts ih =>
    intro info
    rw [scanTags, classifyTag_eq]
    cases hk : tagKind t
    case photo =>
      cases ha : t.anchorHref with
      | none =>
        simp only [List.mem_cons]
        constructor
        · rintro ⟨info1, h⟩; simp at h
        · intro h
          have := h t (Or.inl rfl) hk
          rw [ha] at this
          simp at this
      | some href =>
        simp only [List.mem_cons]
        constructor
        · intro h x hx hxk
          rcases hx with rfl | hx
          · rw [ha]; rfl
          · exact ((ih _).mp h) x hx hxk
        · intro h
          exact (ih _).mpr fun x hx hxk => h x (Or.inr hx) hxk
    all_goals
      simp only [List.mem_cons]
      constructor
      · intro h x hx hxk
        rcases hx with rfl | hx
        · rw [hk] at hxk; cases hxk
        · exact ((ih _).mp h) x hx hxk
      · intro h
        exact (ih _).mpr fun x hx hxk => h x (Or.inr hx) hxk

/-- A tag of a different kind does not change the last-of-kind tag. -/
lemma lastOfKind_cons_ne {k : TagKind} {t : HtmlTag} (ts : List HtmlTag)
    (h : tagKind t ≠ k) : lastOfKind k (t :: ts) = lastOfKind k ts := by
  rw [lastOfKind]
  cases lastOfKind k ts with
  | some u => rfl
  | none => simp [h]

/-- After a completed scan, every field of `listing_info` holds the value
captured from the last scanned tag of the corresponding kind, or keeps its
incoming value when no tag of that kind was scanned. -/
lemma scanTags_fields (ts : List HtmlTag) :
    ∀ info info1 : ListingInfo, scanTags info ts = Except.ok info1 →
      info1.url = (match lastOfKind TagKind.photo ts with
                   | some u => u.anchorHref
                   | none => info.url) ∧
      info1.image_url = (match lastOfKind TagKind.photo ts with
                         | some u => some u.background
                         | none => info.image_url) ∧
      info1.price = (match lastOfKind TagKind.price ts with
                     | some u => some (strip u.text)
                     | none => info.price) ∧
      info1.facts = (match lastOfKind TagKind.facts ts with
                     | some u => some (strip u.text)
                     | none => info.facts) ∧
      info1.address = (match lastOfKind TagKind.address ts with
                       | some u => some (stripZwnj (strip u.text))
                       | none => info.address) := by
  induction ts with
  | nil =>
    intro info info1 h
    simp only [scanTags] at h
    cases h
    simp [lastOfKind]
  | cons t ts ih =>
    intro info info1 h
    rw [scanTags, classifyTag_eq] at h
    cases hk : tagKind t
    case other =>
      rw [hk] at h
      obtain ⟨h1, h2, h3, h4, h5⟩ := ih info info1 h
      refine ⟨?_, ?_, ?_, ?_, ?_⟩ <;>
        rw [lastOfKind_cons_ne ts (by rw [hk]; intro hc; cases hc)] <;>
        assumption
    case photo =>
      rw [hk] at h
      cases ha : t.anchorHref with
      | none => rw [ha] at h; cases h
      | some href =>
        rw [ha] at h
        obtain ⟨h1, h2, h3, h4, h5⟩ := ih _ info1 h
        have hcons : lastOfKind TagKind.photo (t :: ts) =
            match lastOfKind TagKind.photo ts with
            | some u => some u
            | none => some t := by
          rw [lastOfKind]; cases lastOfKind TagKind.photo ts <;> simp [hk]
        refine ⟨?_, ?_, ?_, ?_, ?_⟩
        · rw [hcons]
          cases hl : lastOfKind TagKind.photo ts <;> rw [hl] at h1 <;>
            simp only [h1, ha]
        · rw [hcons]
          cases hl : lastOfKind TagKind.photo ts <;> rw [hl] at h2 <;>
            simp only [h2]
        · rw [lastOfKind_cons_ne ts (by rw [hk]; intro hc; cases hc)]
          cases hl : lastOfKind TagKind.price ts <;> rw [hl] at h3 <;>
            simp only [h3]
        · rw [lastOfKind_cons_ne ts (by rw [hk]; intro hc; cases hc)]
          cases hl : lastOfKind TagKind.facts ts <;> rw [hl] at h4 <;>
            simp only [h4]
        · rw [lastOfKind_cons_ne ts (by rw [hk]; intro hc; cases hc)]
          cases hl : lastOfKind TagKind.address ts <;> rw [hl] at h5 <;>
            simp only [h5]
    case price =>
      rw [hk] at h
      obtain ⟨h1, h2, h3, h4, h5⟩ := ih _ info1 h
      have hcons : lastOfKind TagKind.price (t :: ts) =
          match lastOfKind TagKind.price ts with
          | some u => some u
          | none => some t := by
        rw [lastOfKind]; cases lastOfKind TagKind.price ts <;> simp [hk]
      refine ⟨?_, ?_, ?_, ?_, ?_⟩
      · rw [lastOfKind_cons_ne ts (by rw [hk]; intro hc; cases hc)]
        cases hl : lastOfKind TagKind.photo ts <;> rw [hl] at h1 <;>
          simp only [h1]
      · rw [lastOfKind_cons_ne ts (by rw [hk]; intro hc; cases hc)]
        cases hl : lastOfKind TagKind.photo ts <;> rw [hl] at h2 <;>
          simp only [h2]
      · rw [hcons]
        cases hl : lastOfKind TagKind.price ts <;> rw [hl] at h3 <;>
          simp only [h3]
      · rw [lastOfKind_cons_ne ts (by rw [hk]; intro hc; cases hc)]
        cases hl : lastOfKind TagKind.facts ts <;> rw [hl] at h4 <;>
          simp only [h4]
      · rw [lastOfKind_cons_ne ts (by rw [hk]; intro hc; cases hc)]
        cases hl : lastOfKind TagKind.address ts <;> rw [hl] at h5 <;>
          simp only [h5]
    case facts =>
      rw [hk] at h
      obtain ⟨h1, h2, h3, h4, h5⟩ := ih _ info1 h
      have hcons : lastOfKind TagKind.facts (t :: ts) =
          match lastOfKind TagKind.facts ts with
          | some u => some u
          | none => some t := by
        rw [lastOfKind]; cases lastOfKind TagKind.facts ts <;> simp [hk]
      refine ⟨?_, ?_, ?_, ?_, ?_⟩
      · rw [lastOfKind_cons_ne ts (by rw [hk]; intro hc; cases hc)]
        cases hl : lastOfKind TagKind.photo ts <;> rw [hl] at h1 <;>
          simp only [h1]
      · rw [lastOfKind_cons_ne ts (by rw [hk]; intro hc; cases hc)]
        cases hl : lastOfKind TagKind.photo ts <;> rw [hl] at h2 <;>
          simp only [h2]
      · rw [lastOfKind_cons_ne ts (by rw [hk]; intro hc; cases hc)]
        cases hl : lastOfKind TagKind.price ts <;> rw [hl] at h3 <;>
          simp only [h3]
      · rw [hcons]
        cases hl : lastOfKind TagKind.facts ts <;> rw [hl] at h4 <;>
          simp only [h4]
      · rw [lastOfKind_cons_ne ts (by rw [hk]; intro hc; cases hc)]
        cases hl : lastOfKind TagKind.address ts <;> rw [hl] at h5 <;>
          simp only [h5]
    case address =>
      rw [hk] at h
      obtain ⟨h1, h2, h3, h4, h5⟩ := ih _ info1 h
      have hcons : lastOfKind TagKind.address (t :: ts) =
          match lastOfKind TagKind.address ts with
          | some u => some u
          | none => some t := by
        rw [lastOfKind]; cases lastOfKind TagKind.address ts <;> simp [hk]
      refine ⟨?_, ?_, ?_, ?_, ?_⟩
      · rw [lastOfKind_cons_ne ts (by rw [hk]; intro hc; cases hc)]
        cases hl : lastOfKind TagKind.photo ts <;> rw [hl] at h1 <;>
          simp only [h1]
      · rw [lastOfKind_cons_ne ts (by rw [hk]; intro hc; cases hc)]
        cases hl : lastOfKind TagKind.photo ts <;> rw [hl] at h2 <;>
          simp only [h2]
      · rw [lastOfKind_cons_ne ts (by rw [hk]; intro hc; cases hc)]
        cases hl : lastOfKind TagKind.price ts <;> rw [hl] at h3 <;>
          simp only [h3]
      · rw [lastOfKind_cons_ne ts (by rw [hk]; intro hc; cases hc)]
        cases hl : lastOfKind TagKind.facts ts <;> rw [hl] at h4 <;>
          simp only [h4]
      · rw [hcons]
        cases hl : lastOfKind TagKind.address ts <;> rw [hl] at h5 <;>
          simp only [h5]

/-- No scanned tag of kind `k` means no last-of-kind tag. -/
lemma lastOfKind_eq_none {k : TagKind} (ts : List HtmlTag)
    (h : kindFilter k ts = []) : lastOfKind k ts = none := by
  induction ts with
  | nil => rfl
  | cons t ts ih =>
    rw [kindFilter, List.filter_cons] at h
    by_cases hc : (tagKind t == k) = true
    · rw [if_pos hc] at h; cases h
    · rw [if_neg hc] at h
      rw [lastOfKind, ih h]
      simp [hc]

/-- A unique scanned tag of kind `k` is the last one. -/
lemma lastOfKind_of_filter_singleton {k : TagKind} {u : HtmlTag}
    (ts : List HtmlTag) (h : kindFilter k ts = [u]) :
    lastOfKind k ts = some u := by
  induction ts with
  | nil => cases h
  | cons t ts ih =>
    rw [kindFilter, List.filter_cons] at h
    by_cases hc : (tagKind t == k) = true
    · rw [if_pos hc] at h
      injection h with h1 h2
      subst h1
      rw [lastOfKind, lastOfKind_eq_none ts h2]
      simp [hc]
    · rw [if_neg hc] at h
      rw [lastOfKind, ih h]

/-- `ZillowListing(**listing_info)` succeeds exactly when every key is
present. -/
lemma mkZillowListing_ok_iff (info : ListingInfo) :
    (∃ l, mkZillowListing info = Except.ok l) ↔
      (info.url.isSome ∧ info.image_url.isSome ∧ info.price.isSome ∧
        info.facts.isSome ∧ info.address.isSome) := by
  obtain ⟨u, i, p, f, a⟩ := info
  cases u <;> cases i <;> cases p <;> cases f <;> cases a <;>
    simp [mkZillowListing]

/-- A constructed listing's fields are the dict's values. -/
lemma mkZillowListing_ok_elim {info : ListingInfo} {l : ZillowListing}
    (h : mkZillowListing info = Except.ok l) :
    info.url = some l.url ∧ info.image_url = some l.image_url ∧
      info.price = some l.price ∧ info.facts = some l.facts ∧
      info.address = some l.address := by
  obtain ⟨u, i, p, f, a⟩ := info
  cases u <;> cases i <;> cases p <;> cases f <;> cases a <;>
    simp [mkZillowListing] at h <;> simp [← h]

/-- Unfolding of the extractor once the HTML part is known. -/
lemma parse_eq_of_findHtmlPart {parts : List MessagePart} {p : MessagePart}
    (hp : findHtmlPart parts = some p) :
    parse_message_for_listing parts =
      match scanTags ListingInfo.init (scanList p) with
      | Except.error e => Except.error e
      | Except.ok info => mkZillowListing info := by
  rw [parse_message_for_listing, hp]

/-! ## Extractor claims -/

/-- C3: for every raw message containing no part whose content type is HTML,
the extractor fails with the no-HTML-part error and yields no listing. -/
theorem extract_no_html_part_fails (parts : List MessagePart)
    (h : ∀ p ∈ parts, p.contentType ≠ "text/html") :
    parse_message_for_listing parts = Except.error ExtractionError.noHtmlPart := by
  have hf : findHtmlPart parts = none := by
    induction parts with
    | nil => rfl
    | cons p ps ih =>
      rw [findHtmlPart, if_neg (h p (List.mem_cons_self p ps))]
      exact ih fun q hq => h q (List.mem_cons_of_mem p hq)
  rw [parse_message_for_listing, hf]

/-- Witness for C3 at a concrete single-part plain-text message. -/
theorem extract_no_html_part_fails_witness :
    (∀ p ∈ [plainPart], p.contentType ≠ "text/html") ∧
      parse_message_for_listing [plainPart] =
        Except.error ExtractionError.noHtmlPart :=
  ⟨by decide, extract_no_html_part_fails [plainPart] (by decide)⟩

/-- C2, counterexample: a message with a parsable HTML part in which none of
the recognized fields occurs does NOT yield a listing with absent fields —
the namedtuple construction fails, refuting the claim that extraction
succeeds whenever an HTML part parses. -/
theorem extract_partial_fields_cex :
    parse_message_for_listing [emptyHtmlPart] =
      Except.error ExtractionError.missingFields := rfl

/-- C2, amended: for a message with a parsable HTML part whose scan completes
(no photo tag lacking an anchor), extraction returns the listing built from
the populated fields, and it succeeds if and only if ALL four recognized
kinds were found (all five dict keys present); any missing field makes the
construction of the listing fail instead of being left absent. -/
theorem extract_requires_all_fields (parts : List MessagePart)
    (p : MessagePart) (info : ListingInfo)
    (hp : findHtmlPart parts = some p)
    (hscan : scanTags ListingInfo.init (scanList p) = Except.ok info) :
    parse_message_for_listing parts = mkZillowListing info ∧
      ((∃ l, parse_message_for_listing parts = Except.ok l) ↔
        (info.url.isSome ∧ info.image_url.isSome ∧ info.price.isSome ∧
          info.facts.isSome ∧ info.address.isSome)) := by
  have h1 : parse_message_for_listing parts = mkZillowListing info := by
    rw [parse_eq_of_findHtmlPart hp, hscan]
  refine ⟨h1, ?_⟩
  rw [show (∃ l, parse_message_for_listing parts = Except.ok l) ↔
      (∃ l, mkZillowListing info = Except.ok l) from by rw [h1]]
  exact mkZillowListing_ok_iff info

/-- Witness for C2's amended claim: an HTML part containing only a price tag
scans to a dict with just the price key, and extraction then fails. -/
theorem extract_requires_all_fields_witness :
    (findHtmlPart [MessagePart.mk "text/html" [priceTag]] =
        some (MessagePart.mk "text/html" [priceTag])) ∧
    (scanTags ListingInfo.init
        (scanList (MessagePart.mk "text/html" [priceTag])) =
      Except.ok (ListingInfo.mk none none (some "$2,000/mo") none none)) ∧
    (parse_message_for_listing [MessagePart.mk "text/html" [priceTag]] =
        mkZillowListing (ListingInfo.mk none none (some "$2,000/mo") none none) ∧
      ((∃ l, parse_message_for_listing [MessagePart.mk "text/html" [priceTag]] =
          Except.ok l) ↔
        ((ListingInfo.mk none none (some "$2,000/mo") none none).url.isSome ∧
          (ListingInfo.mk none none (some "$2,000/mo") none none).image_url.isSome ∧
          (ListingInfo.mk none none (some "$2,000/mo") none none).price.isSome ∧
          (ListingInfo.mk none none (some "$2,000/mo") none none).facts.isSome ∧
          (ListingInfo.mk none none (some "$2,000/mo") none none).address.isSome))) :=
  ⟨rfl, rfl, extract_requires_all_fields _ _ _ rfl rfl⟩

/-- C10: if any of the first five labeled tags is a photo tag with no anchor
descendant, the extractor fails (the `tag.a` lookup is unguarded) instead of
returning a listing with `url` absent. -/
theorem extract_photo_no_anchor_fails (parts : List MessagePart)
    (p : MessagePart) (t : HtmlTag)
    (hp : findHtmlPart parts = some p)
    (ht : t ∈ scanList p) (hk : tagKind t = TagKind.photo)
    (ha : t.anchorHref = none) :
    parse_message_for_listing parts = Except.error ExtractionError.noAnchor := by
  cases hres : scanTags ListingInfo.init (scanList p) with
  | ok info =>
    exfalso
    have hsome := (scanTags_ok_iff (scanList p) ListingInfo.init).mp
      ⟨info, hres⟩ t ht hk
    rw [ha] at hsome
    simp at hsome
  | error e =>
    have he := scanTags_error_eq _ _ _ hres
    subst he
    rw [parse_eq_of_findHtmlPart hp, hres]

/-- Witness for C10 at a message whose photo tag has no anchor. -/
theorem extract_photo_no_anchor_fails_witness :
    (findHtmlPart [noAnchorPart] = some noAnchorPart) ∧
    (photoTagNoAnchor ∈ scanList noAnchorPart) ∧
    (tagKind photoTagNoAnchor = TagKind.photo) ∧
    (photoTagNoAnchor.anchorHref = none) ∧
    (parse_message_for_listing [noAnchorPart] =
        Except.error ExtractionError.noAnchor) :=
  ⟨rfl, by decide, rfl, rfl,
    extract_photo_no_anchor_fails _ _ photoTagNoAnchor rfl (by decide) rfl rfl⟩

/-- C4: the extraction result depends only on the first five labeled tags in
document order — two HTML bodies agreeing on those extract identically, so a
sixth or later labeled tag, even with a recognized label, contributes
nothing. -/
theorem extract_scan_bounded (d1 d2 : List HtmlTag)
    (h : scanList (MessagePart.mk "text/html" d1) =
      scanList (MessagePart.mk "text/html" d2)) :
    parse_message_for_listing [MessagePart.mk "text/html" d1] =
      parse_message_for_listing [MessagePart.mk "text/html" d2] := by
  have hp1 : findHtmlPart [MessagePart.mk "text/html" d1] =
      some (MessagePart.mk "text/html" d1) := by
    rw [findHtmlPart]; simp
  have hp2 : findHtmlPart [MessagePart.mk "text/html" d2] =
      some (MessagePart.mk "text/html" d2) := by
    rw [findHtmlPart]; simp
  rw [parse_eq_of_findHtmlPart hp1, parse_eq_of_findHtmlPart hp2, h]

/-- Witness for C4: a sixth labeled tag carrying a recognized price label is
invisible — the document extracts exactly like its five-tag truncation, and
the sixth tag's price does not appear. -/
theorem extract_scan_bounded_witness :
    (scanList (MessagePart.mk "text/html"
        [photoTag, priceTag, factsTag, addressTag, otherTag, priceTag2]) =
      scanList (MessagePart.mk "text/html"
        [photoTag, priceTag, factsTag, addressTag, otherTag])) ∧
    (parse_message_for_listing [MessagePart.mk "text/html"
        [photoTag, priceTag, factsTag, addressTag, otherTag, priceTag2]] =
      parse_message_for_listing [MessagePart.mk "text/html"
        [photoTag, priceTag, factsTag, addressTag, otherTag]]) ∧
    (parse_message_for_listing [MessagePart.mk "text/html"
        [photoTag, priceTag, factsTag, addressTag, otherTag, priceTag2]] =
      Except.ok goodListing) :=
  ⟨rfl, extract_scan_bounded _ _ rfl, rfl⟩

/-- C5: for a well-formed HTML part containing exactly one labeled block of
each recognized kind within the first five labeled tags (the photo block
having an anchor), extraction returns a listing whose `url`/`image_url` come
from the photo tag's anchor `href` and `background` attribute, and whose
`price`, `facts` and `address` are the corresponding tags' text stripped,
with zero-width non-joiners additionally removed from `address`. -/
theorem extract_four_kinds_populates_all (parts : List MessagePart)
    (p : MessagePart) (tp tpr tf ta : HtmlTag) (href : Option String)
    (hp : findHtmlPart parts = some p)
    (h1 : kindFilter TagKind.photo (scanList p) = [tp])
    (h2 : kindFilter TagKind.price (scanList p) = [tpr])
    (h3 : kindFilter TagKind.facts (scanList p) = [tf])
    (h4 : kindFilter TagKind.address (scanList p) = [ta])
    (ha : tp.anchorHref = some href) :
    parse_message_for_listing parts =
      Except.ok ⟨href, tp.background, strip tpr.text, strip tf.text,
        stripZwnj (strip ta.text)⟩ := by
  have hok : ∀ t ∈ scanList p, tagKind t = TagKind.photo → t.anchorHref.isSome := by
    intro t htm htk
    have hmem : t ∈ kindFilter TagKind.photo (scanList p) :=
      List.mem_filter.mpr ⟨htm, by simp [htk]⟩
    rw [h1] at hmem
    simp at hmem
    subst hmem
    rw [ha]; rfl
  obtain ⟨info, hscan⟩ := (scanTags_ok_iff _ _).mpr hok
  obtain ⟨f1, f2, f3, f4, f5⟩ := scanTags_fields _ _ _ hscan
  rw [lastOfKind_of_filter_singleton _ h1] at f1 f2
  rw [lastOfKind_of_filter_singleton _ h2] at f3
  rw [lastOfKind_of_filter_singleton _ h3] at f4
  rw [lastOfKind_of_filter_singleton _ h4] at f5
  have g1 : info.url = some href := by rw [← ha]; exact f1
  have g2 : info.image_url = some tp.background := f2
  have g3 : info.price = some (strip tpr.text) := f3
  have g4 : info.facts = some (strip tf.text) := f4
  have g5 : info.address = some (stripZwnj (strip ta.text)) := f5
  rw [parse_eq_of_findHtmlPart hp, hscan]
  show mkZillowListing info = _
  unfold mkZillowListing
  rw [g1, g2, g3, g4, g5]

/-- Witness for C5 at a four-tag document. -/
theorem extract_four_kinds_populates_all_witness :
    (findHtmlPart [goodPart] = some goodPart) ∧
    (kindFilter TagKind.photo (scanList goodPart) = [photoTag]) ∧
    (kindFilter TagKind.price (scanList goodPart) = [priceTag]) ∧
    (kindFilter TagKind.facts (scanList goodPart) = [factsTag]) ∧
    (kindFilter TagKind.address (scanList goodPart) = [addressTag]) ∧
    (photoTag.anchorHref = some (some "https://z/1")) ∧
    (parse_message_for_listing [goodPart] =
      Except.ok ⟨some "https://z/1", photoTag.background, strip priceTag.text,
        strip factsTag.text, stripZwnj (strip addressTag.text)⟩) :=
  ⟨rfl, rfl, rfl, rfl, rfl, rfl,
    extract_four_kinds_populates_all _ _ _ _ _ _ _ rfl rfl rfl rfl rfl rfl⟩

/-- C9: when extraction succeeds, each listing field holds the value captured
from the LAST tag of its kind among the first five labeled tags — later
matches of the same recognized prefix overwrite earlier ones. -/
theorem extract_last_match_wins (parts : List MessagePart) (p : MessagePart)
    (l : ZillowListing)
    (hp : findHtmlPart parts = some p)
    (hok : parse_message_for_listing parts = Except.ok l) :
    (∀ u, lastOfKind TagKind.photo (scanList p) = some u →
        some l.url = u.anchorHref ∧ l.image_url = u.background) ∧
    (∀ u, lastOfKind TagKind.price (scanList p) = some u →
        l.price = strip u.text) ∧
    (∀ u, lastOfKind TagKind.facts (scanList p) = some u →
        l.facts = strip u.text) ∧
    (∀ u, lastOfKind TagKind.address (scanList p) = some u →
        l.address = stripZwnj (strip u.text)) := by
  rw [parse_eq_of_findHtmlPart hp] at hok
  cases hres : scanTags ListingInfo.init (scanList p) with
  | error e => rw [hres] at hok; cases hok
  | ok info =>
    rw [hres] at hok
    obtain ⟨f1, f2, f3, f4, f5⟩ := scanTags_fields _ _ _ hres
    obtain ⟨m1, m2, m3, m4, m5⟩ := mkZillowListing_ok_elim hok
    refine ⟨?_, ?_, ?_, ?_⟩
    · intro u hu
      rw [hu] at f1 f2
      have f1' : info.url = u.anchorHref := f1
      have f2' : info.image_url = some u.background := f2
      exact ⟨m1 ▸ f1', Option.some.inj (m2.symm.trans f2')⟩
    · intro u hu
      rw [hu] at f3
      have f3' : info.price = some (strip u.text) := f3
      exact Option.some.inj (m3.symm.trans f3')
    · intro u hu
      rw [hu] at f4
      have f4' : info.facts = some (strip u.text) := f4
      exact Option.some.inj (m4.symm.trans f4')
    · intro u hu
      rw [hu] at f5
      have f5' : info.address = some (stripZwnj (strip u.text)) := f5
      exact Option.some.inj (m5.symm.trans f5')

/-- Witness for C9: with two price tags among the first five labeled tags,
the emitted price is the second (last) one's text. -/
theorem extract_last_match_wins_witness :
    (findHtmlPart [dupPricePart] = some dupPricePart) ∧
    (parse_message_for_listing [dupPricePart] =
        Except.ok ⟨some "https://z/1", some "https://img/1", "$9",
          "2 bd, 1 ba", "1 Main St"⟩) ∧
    (lastOfKind TagKind.price (scanList dupPricePart) = some priceTag2) ∧
    (("$9" : String) = strip priceTag2.text) :=
  ⟨rfl, rfl, rfl,
    (extract_last_match_wins [dupPricePart] dupPricePart _ rfl rfl).2.1
      priceTag2 rfl⟩

/-! ## Lemmas about the pipeline -/

/-- Marking preserves the number of mailbox entries. -/
lemma markSeen_length (mb : Mailbox) (h : Nat) :
    (markSeen mb h).entries.length = mb.entries.length := by
  rw [markSeen]
  cases he : mb.entries[h]? with
  | none => rfl
  | some e => simp

/-- Marking one entry leaves the others untouched. -/
lemma markSeen_get_ne (mb : Mailbox) {x h : Nat} (hne : x ≠ h) :
    (markSeen mb h).entries[x]? = mb.entries[x]? := by
  rw [markSeen]
  cases he : mb.entries[h]? with
  | none => rfl
  | some e => simp [List.getElem?_set_ne (Ne.symm hne)]

/-- Marking sets exactly the `seen` flag of the marked entry. -/
lemma markSeen_get_self (mb : Mailbox) {h : Nat} {e : BoxEntry}
    (he : mb.entries[h]? = some e) :
    (markSeen mb h).entries[h]? = some { e with seen := true } := by
  rw [markSeen, he]
  have hlt : h < mb.entries.length := by
    by_contra hge
    rw [List.getElem?_eq_none (Nat.le_of_not_lt hge)] at he
    cases he
  simp [List.getElem?_set_self, hlt]

/-- The fetch/extract/store outcome of a message is unaffected by `\Seen`
flags set elsewhere (or on itself). -/
lemma stepOutcome_markSeen (mb : Mailbox) (y x : Nat) :
    stepOutcome (markSeen mb y) x = stepOutcome mb x := by
  by_cases hxy : x = y
  · subst hxy
    cases he : mb.entries[x]? with
    | none => simp [stepOutcome, markSeen, he]
    | some e => simp [stepOutcome, markSeen_get_self mb he, he]
  · rw [stepOutcome, stepOutcome, markSeen_get_ne mb hxy]

/-- Processability of a message is unaffected by marking. -/
lemma procOk_markSeen (mb : Mailbox) (y x : Nat) :
    procOk (markSeen mb y) x = procOk mb x := by
  rw [procOk, procOk, stepOutcome_markSeen]

/-- A failing first message makes the whole cycle fail immediately: the
exception escapes, nothing is yielded, and the mailbox is unchanged. -/
lemma runMsgs_fatal_head {mb : Mailbox} {h : Nat} {er : PipelineError}
    (hf : stepOutcome mb h = some er) (rest : List Nat) :
    (runMsgs mb (h :: rest)).err = some er ∧
      (runMsgs mb (h :: rest)).mb = mb ∧
      (runMsgs mb (h :: rest)).outs = [] := by
  cases he : mb.entries[h]? with
  | none =>
    simp only [stepOutcome, he, Option.some.injEq] at hf
    subst hf
    simp [runMsgs, he]
  | some e =>
    by_cases hff : e.fetchFails
    · simp only [stepOutcome, he, hff, if_true] at hf
      rw [Option.some.injEq] at hf
      subst hf
      simp [runMsgs, he, hff]
    · cases hpr : parse_message_for_listing e.msg.parts with
      | error ex =>
        simp only [stepOutcome, he, hff, if_false, Bool.false_eq_true, hpr,
          Option.some.injEq] at hf
        subst hf
        simp [runMsgs, he, hff, hpr]
      | ok l =>
        by_cases hsf : e.storeFails
        · simp only [stepOutcome, he, hff, Bool.false_eq_true, if_false, hpr,
            hsf, if_true, Option.some.injEq] at hf
          subst hf
          simp [runMsgs, he, hff, hpr, hsf]
        · simp only [stepOutcome, he, hff, Bool.false_eq_true, if_false, hpr,
            hsf] at hf
          cases hf

/-- A processable first message is fetched, extracted, marked and yielded,
and the cycle continues on the marked mailbox. -/
lemma runMsgs_ok_head {mb : Mailbox} {h : Nat}
    (hf : stepOutcome mb h = none) (rest : List Nat) :
    ∃ e l, mb.entries[h]? = some e ∧
      parse_message_for_listing e.msg.parts = Except.ok l ∧
      runMsgs mb (h :: rest) =
        ⟨(runMsgs (markSeen mb h) rest).mb,
          Event.fetched h :: Event.extracted h :: Event.marked h ::
            Event.emitted h l :: (runMsgs (markSeen mb h) rest).events,
          (h, l) :: (runMsgs (markSeen mb h) rest).outs,
          (runMsgs (markSeen mb h) rest).err⟩ := by
  cases he : mb.entries[h]? with
  | none => simp only [stepOutcome, he] at hf; cases hf
  | some e =>
    by_cases hff : e.fetchFails
    · simp only [stepOutcome, he, hff, if_true] at hf
      cases hf
    · cases hpr : parse_message_for_listing e.msg.parts with
      | error ex =>
        simp only [stepOutcome, he, hff, Bool.false_eq_true, if_false, hpr] at hf
        cases hf
      | ok l =>
        by_cases hsf : e.storeFails
        · simp only [stepOutcome, he, hff, Bool.false_eq_true, if_false, hpr,
            hsf, if_true] at hf
          cases hf
        · refine ⟨e, l, rfl, hpr, ?_⟩
          simp [runMsgs, he, hff, hpr, hsf]

/-- Processing messages never changes the number of mailbox entries. -/
lemma runMsgs_length (hs : List Nat) :
    ∀ mb : Mailbox, (runMsgs mb hs).mb.entries.length = mb.entries.length := by
  induction hs with
  | nil => intro mb; rfl
  | cons h rest ih =>
    intro mb
    cases hso : stepOutcome mb h with
    | some er => rw [(runMsgs_fatal_head hso rest).2.1]
    | none =>
      obtain ⟨e, l, he, hpr, hrun⟩ := runMsgs_ok_head hso rest
      rw [hrun]
      exact (ih (markSeen mb h)).trans (markSeen_length mb h)

/-- Marking the marked entry reports `seen`. -/
lemma markSeen_seen_self {mb : Mailbox} {a : Nat} {e : BoxEntry}
    (he : mb.entries[a]? = some e) :
    seenAt (markSeen mb a) a = some true := by
  rw [seenAt, markSeen_get_self mb he]
  rfl

/-- A `\Seen` flag, once set, is never cleared by marking. -/
lemma markSeen_seen_mono {mb : Mailbox} {x : Nat} (y : Nat)
    (hx : seenAt mb x = some true) :
    seenAt (markSeen mb y) x = some true := by
  by_cases hxy : x = y
  · subst hxy
    rw [seenAt] at hx
    cases he : mb.entries[x]? with
    | none => rw [he] at hx; cases hx
    | some e => rw [markSeen_seen_self he]
  · rw [seenAt, markSeen_get_ne mb hxy]
    exact hx

/-- A `\Seen` flag, once set, survives the rest of the cycle. -/
lemma runMsgs_seen_mono (hs : List Nat) :
    ∀ (mb : Mailbox) (x : Nat), seenAt mb x = some true →
      seenAt (runMsgs mb hs).mb x = some true := by
  induction hs with
  | nil => intro mb x hx; exact hx
  | cons h rest ih =>
    intro mb x hx
    cases hso : stepOutcome mb h with
    | some er =>
      rw [seenAt, (runMsgs_fatal_head hso rest).2.1]
      exact hx
    | none =>
      obtain ⟨e, l, he, hpr, hrun⟩ := runMsgs_ok_head hso rest
      rw [hrun]
      exact ih (markSeen mb h) x (markSeen_seen_mono h hx)

/-- The handles yielded by a cycle form a prefix of the searched handles, in
order. -/
lemma runMsgs_outs_prefix (hs : List Nat) :
    ∀ mb : Mailbox, ∃ k, (runMsgs mb hs).outs.map Prod.fst = hs.take k := by
  induction hs with
  | nil => intro mb; exact ⟨0, rfl⟩
  | cons h rest ih =>
    intro mb
    cases hso : stepOutcome mb h with
    | some er =>
      refine ⟨0, ?_⟩
      rw [(runMsgs_fatal_head hso rest).2.2]
      rfl
    | none =>
      obtain ⟨e, l, he, hpr, hrun⟩ := runMsgs_ok_head hso rest
      obtain ⟨k, hk⟩ := ih (markSeen mb h)
      refine ⟨k + 1, ?_⟩
      rw [hrun]
      show (h, l).1 :: (runMsgs (markSeen mb h) rest).outs.map Prod.fst = _
      rw [hk, List.take_succ_cons]

/-- Every yielded handle is marked `\Seen` in the resulting mailbox. -/
lemma runMsgs_outs_seen (hs : List Nat) :
    ∀ (mb : Mailbox) (x : Nat),
      x ∈ (runMsgs mb hs).outs.map Prod.fst →
      seenAt (runMsgs mb hs).mb x = some true := by
  induction hs with
  | nil => intro mb x hx; cases hx
  | cons h rest ih =>
    intro mb x hx
    cases hso : stepOutcome mb h with
    | some er =>
      rw [(runMsgs_fatal_head hso rest).2.2] at hx
      cases hx
    | none =>
      obtain ⟨e, l, he, hpr, hrun⟩ := runMsgs_ok_head hso rest
      rw [hrun] at hx ⊢
      rcases List.mem_cons.mp hx with hxh | hx2
      · subst hxh
        exact runMsgs_seen_mono rest (markSeen mb x) x (markSeen_seen_self he)
      · exact ih (markSeen mb h) x hx2

/-- Search never returns a handle twice. -/
lemma search_nodup (mb : Mailbox) (sender subject : String) :
    (search mb sender subject).Nodup :=
  List.Nodup.filter _ (List.nodup_range _)

/-- Search only returns currently-unseen messages. -/
lemma search_mem_unseen {mb : Mailbox} {sender subject : String} {x : Nat}
    (hx : x ∈ search mb sender subject) : seenAt mb x = some false := by
  have hp := List.of_mem_filter hx
  rw [seenAt]
  cases he : mb.entries[x]? with
  | none => rw [he] at hp; simp at hp
  | some e =>
    rw [he] at hp
    simp only [matchesCriteria, Bool.and_eq_true, Bool.not_eq_true'] at hp
    show some e.seen = some false
    rw [hp.2]

/-- Fatal-failure anatomy of one cycle: if the first `hs₁` handles process
cleanly and handle `h` then raises, the exception escapes as the cycle's
error, exactly the `hs₁` listings were yielded (in order) and marked seen,
and `h` and the remaining handles are untouched: not marked, not yielded. -/
lemma runMsgs_fatal_prefix (hs₁ : List Nat) :
    ∀ (mb : Mailbox) (h : Nat) (hs₂ : List Nat) (er : PipelineError),
      (∀ x ∈ hs₁, procOk mb x = true) →
      (∀ x ∈ h :: hs₂, x ∉ hs₁) →
      stepOutcome mb h = some er →
      (runMsgs mb (hs₁ ++ h :: hs₂)).err = some er ∧
      (runMsgs mb (hs₁ ++ h :: hs₂)).outs.map Prod.fst = hs₁ ∧
      (∀ x ∈ h :: hs₂,
        (runMsgs mb (hs₁ ++ h :: hs₂)).mb.entries[x]? = mb.entries[x]?) ∧
      (∀ x ∈ hs₁, seenAt (runMsgs mb (hs₁ ++ h :: hs₂)).mb x = some true) := by
  induction hs₁ with
  | nil =>
    intro mb h hs₂ er hok hdisj hstep
    rw [List.nil_append]
    obtain ⟨he, hmb, houts⟩ := runMsgs_fatal_head hstep hs₂
    refine ⟨he, by rw [houts]; rfl, ?_, by simp⟩
    intro x hx
    rw [hmb]
  | cons a hs₁ ih =>
    intro mb h hs₂ er hok hdisj hstep
    have hproc : stepOutcome mb a = none := by
      have := hok a (List.mem_cons_self a hs₁)
      rwa [procOk, Option.isNone_iff_eq_none] at this
    obtain ⟨e, l, he, hpr, hrun⟩ := runMsgs_ok_head hproc (hs₁ ++ h :: hs₂)
    rw [List.cons_append, hrun]
    have ihr := ih (markSeen mb a) h hs₂ er
      (fun x hx => by
        rw [procOk_markSeen]
        exact hok x (List.mem_cons_of_mem a hx))
      (fun x hx hmem => hdisj x hx (List.mem_cons_of_mem a hmem))
      (by rw [stepOutcome_markSeen]; exact hstep)
    obtain ⟨e1, e2, e3, e4⟩ := ihr
    refine ⟨e1, ?_, ?_, ?_⟩
    · show (a, l).1 ::
        (runMsgs (markSeen mb a) (hs₁ ++ h :: hs₂)).outs.map Prod.fst = a :: hs₁
      rw [e2]
    · intro x hx
      have hxa : x ≠ a := fun heq =>
        hdisj x hx (heq ▸ List.mem_cons_self a hs₁)
      show (runMsgs (markSeen mb a) (hs₁ ++ h :: hs₂)).mb.entries[x]? =
        mb.entries[x]?
      rw [e3 x hx, markSeen_get_ne mb hxa]
    · intro x hx
      rcases List.mem_cons.mp hx with hxa | hx1
      · subst hxa
        exact runMsgs_seen_mono _ (markSeen mb x) x (markSeen_seen_self he)
      · exact e4 x hx1

/-! ## Pipeline claims about failure handling -/

/-- C1, counterexample: one unseen matching message whose extraction fails.
The pipeline does NOT log-and-continue: the extraction error escapes the
generator as the cycle's error, the message is NOT marked seen, and the loop
does not continue — refuting the claim that the failure is absorbed and the
message marked seen and skipped. -/
theorem pipeline_extraction_cex :
    (pollCycle mbPoison "zillow@z.com" "update").err =
        some (PipelineError.extractionError 0 ExtractionError.noHtmlPart) ∧
      seenAt (pollCycle mbPoison "zillow@z.com" "update").mb 0 = some false ∧
      (pollCycle mbPoison "zillow@z.com" "update").outs = [] :=
  ⟨rfl, rfl, rfl⟩

/-- C1, amended: when extraction of a matched message fails (after the
earlier matches processed cleanly), the extraction error escapes the
pipeline as the cycle's fatal error; the failing message is NOT marked seen,
no listing is emitted for it, and no later message of the cycle is processed
(their entries are untouched) — exactly the listings of the preceding
handles were emitted. -/
theorem pipeline_extraction_fatal (mb : Mailbox) (sender subject : String)
    (hs₁ : List Nat) (h : Nat) (hs₂ : List Nat) (e : BoxEntry)
    (ex : ExtractionError)
    (hsearch : search mb sender subject = hs₁ ++ h :: hs₂)
    (hok : ∀ x ∈ hs₁, procOk mb x = true)
    (hget : mb.entries[h]? = some e)
    (hff : e.fetchFails = false)
    (hex : parse_message_for_listing e.msg.parts = Except.error ex) :
    (pollCycle mb sender subject).err =
        some (PipelineError.extractionError h ex) ∧
      (pollCycle mb sender subject).outs.map Prod.fst = hs₁ ∧
      (∀ x ∈ hs₁, seenAt (pollCycle mb sender subject).mb x = some true) ∧
      (∀ x ∈ h :: hs₂,
        (pollCycle mb sender subject).mb.entries[x]? = mb.entries[x]?) := by
  have hstep : stepOutcome mb h = some (PipelineError.extractionError h ex) := by
    simp [stepOutcome, hget, hff, hex]
  have hnd : (hs₁ ++ h :: hs₂).Nodup := hsearch ▸ search_nodup mb sender subject
  rw [List.nodup_append] at hnd
  have hdisj : ∀ x ∈ h :: hs₂, x ∉ hs₁ := fun x hx hmem => hnd.2.2 hmem hx
  have hmain := runMsgs_fatal_prefix hs₁ mb h hs₂ _ hok hdisj hstep
  rw [pollCycle, hsearch]
  exact ⟨hmain.1, hmain.2.1, hmain.2.2.2, hmain.2.2.1⟩

/-- Witness for C1's amended claim: two matching messages, the second a
poison message; the first is emitted and marked, the second's failure
escapes and its entry is untouched. -/
theorem pipeline_extraction_fatal_witness :
    (search mbExtractFail "zillow@z.com" "update" = [0] ++ 1 :: []) ∧
      (∀ x ∈ [0], procOk mbExtractFail x = true) ∧
      (mbExtractFail.entries[1]? = some ⟨noHtmlMsg, false, false, false⟩) ∧
      ((pollCycle mbExtractFail "zillow@z.com" "update").err =
          some (PipelineError.extractionError 1 ExtractionError.noHtmlPart) ∧
        (pollCycle mbExtractFail "zillow@z.com" "update").outs.map Prod.fst =
          [0] ∧
        (∀ x ∈ [0],
          seenAt (pollCycle mbExtractFail "zillow@z.com" "update").mb x =
            some true) ∧
        (∀ x ∈ 1 :: ([] : List Nat),
          (pollCycle mbExtractFail "zillow@z.com" "update").mb.entries[x]? =
            mbExtractFail.entries[x]?)) :=
  ⟨rfl, by decide, rfl,
    pipeline_extraction_fatal mbExtractFail "zillow@z.com" "update" [0] 1 []
      ⟨noHtmlMsg, false, false, false⟩ ExtractionError.noHtmlPart rfl
      (by decide) rfl rfl rfl⟩

/-- C8: a fetch or flag-store failure on a matched message (after the
earlier matches processed cleanly) propagates out of the pipeline as a fatal
error — never swallowed and never treated as an extraction problem: the
earlier messages' listings remain emitted and their messages marked seen,
while the failing message and all later ones of the cycle are neither marked
seen nor emitted. -/
theorem pipeline_fetch_flag_fatal (mb : Mailbox) (sender subject : String)
    (hs₁ : List Nat) (h : Nat) (hs₂ : List Nat) (e : BoxEntry)
    (hsearch : search mb sender subject = hs₁ ++ h :: hs₂)
    (hok : ∀ x ∈ hs₁, procOk mb x = true)
    (hget : mb.entries[h]? = some e)
    (hfail : e.fetchFails = true ∨
      (e.fetchFails = false ∧
        (∃ l, parse_message_for_listing e.msg.parts = Except.ok l) ∧
        e.storeFails = true)) :
    ∃ er, (er = PipelineError.fetchError h ∨ er = PipelineError.flagError h) ∧
      (pollCycle mb sender subject).err = some er ∧
      (pollCycle mb sender subject).outs.map Prod.fst = hs₁ ∧
      (∀ x ∈ hs₁, seenAt (pollCycle mb sender subject).mb x = some true) ∧
      (∀ x ∈ h :: hs₂,
        (pollCycle mb sender subject).mb.entries[x]? = mb.entries[x]?) := by
  have hstep : ∃ er,
      (er = PipelineError.fetchError h ∨ er = PipelineError.flagError h) ∧
        stepOutcome mb h = some er := by
    rcases hfail with hf | ⟨hf, ⟨l, hl⟩, hsf⟩
    · exact ⟨PipelineError.fetchError h, Or.inl rfl,
        by simp [stepOutcome, hget, hf]⟩
    · exact ⟨PipelineError.flagError h, Or.inr rfl,
        by simp [stepOutcome, hget, hf, hl, hsf]⟩
  obtain ⟨er, her, hstep⟩ := hstep
  have hnd : (hs₁ ++ h :: hs₂).Nodup := hsearch ▸ search_nodup mb sender subject
  rw [List.nodup_append] at hnd
  have hdisj : ∀ x ∈ h :: hs₂, x ∉ hs₁ := fun x hx hmem => hnd.2.2 hmem hx
  have hmain := runMsgs_fatal_prefix hs₁ mb h hs₂ er hok hdisj hstep
  rw [pollCycle, hsearch]
  exact ⟨er, her, hmain.1, hmain.2.1, hmain.2.2.2, hmain.2.2.1⟩

/-- Witness for C8: a fetch failure on the second of three matched messages;
the first listing remains emitted and marked seen, the second and third are
untouched. -/
theorem pipeline_fetch_flag_fatal_witness :
    (search mbFetchFail "zillow@z.com" "update" = [0] ++ 1 :: [2]) ∧
      (∀ x ∈ [0], procOk mbFetchFail x = true) ∧
      (mbFetchFail.entries[1]? = some ⟨goodMsg, false, true, false⟩) ∧
      ((⟨goodMsg, false, true, false⟩ : BoxEntry).fetchFails = true) ∧
      (∃ er, (er = PipelineError.fetchError 1 ∨ er = PipelineError.flagError 1) ∧
        (pollCycle mbFetchFail "zillow@z.com" "update").err = some er ∧
        (pollCycle mbFetchFail "zillow@z.com" "update").outs.map Prod.fst =
          [0] ∧
        (∀ x ∈ [0],
          seenAt (pollCycle mbFetchFail "zillow@z.com" "update").mb x =
            some true) ∧
        (∀ x ∈ 1 :: [2],
          (pollCycle mbFetchFail "zillow@z.com" "update").mb.entries[x]? =
            mbFetchFail.entries[x]?)) :=
  ⟨rfl, by decide, rfl, rfl,
    pipeline_fetch_flag_fatal mbFetchFail "zillow@z.com" "update" [0] 1 [2]
      ⟨goodMsg, false, true, false⟩ rfl (by decide) rfl (Or.inl rfl)⟩

/-! ## Pipeline claims about ordering -/

/-- One cycle's trace is a sequence of complete per-message blocks (with at
most a trailing partial block for a raised exception), and the messages are
fetched in search order. -/
lemma runMsgs_trace (hs : List Nat) :
    ∀ mb : Mailbox,
      wellChunked (runMsgs mb hs).events = true ∧
      ∃ k, (runMsgs mb hs).events.filterMap fetchedHandle = hs.take k := by
  induction hs with
  | nil => intro mb; exact ⟨rfl, 0, rfl⟩
  | cons h rest ih =>
    intro mb
    cases he : mb.entries[h]? with
    | none =>
      simp only [runMsgs, he]
      exact ⟨rfl, 0, rfl⟩
    | some e =>
      by_cases hff : e.fetchFails
      · simp only [runMsgs, he, hff, if_true]
        exact ⟨rfl, 0, rfl⟩
      · cases hpr : parse_message_for_listing e.msg.parts with
        | error ex =>
          simp only [runMsgs, he, hff, Bool.false_eq_true, if_false, hpr]
          refine ⟨by simp [wellChunked], 1, ?_⟩
          simp [List.filterMap, fetchedHandle]
        | ok l =>
          by_cases hsf : e.storeFails
          · simp only [runMsgs, he, hff, Bool.false_eq_true, if_false, hpr,
              hsf, if_true]
            refine ⟨by simp [wellChunked], 1, ?_⟩
            simp [List.filterMap, fetchedHandle]
          · simp only [runMsgs, he, hff, Bool.false_eq_true, if_false, hpr,
              hsf]
            obtain ⟨w, k, hk⟩ := ih (markSeen mb h)
            constructor
            · show wellChunked (Event.fetched h :: Event.extracted h ::
                Event.marked h :: Event.emitted h l ::
                (runMsgs (markSeen mb h) rest).events) = true
              simp [wellChunked, w]
            · refine ⟨k + 1, ?_⟩
              show List.filterMap fetchedHandle (Event.fetched h ::
                Event.extracted h :: Event.marked h :: Event.emitted h l ::
                (runMsgs (markSeen mb h) rest).events) = (h :: rest).take (k + 1)
              simp [List.filterMap_cons, fetchedHandle, hk]

/-- C7: within one poll cycle, matched messages are processed strictly in
the order returned by search — the fetched handles and the emitted handles
are both in-order prefixes of the search result — and each message's
fetch → extract → mark → emit block completes before the next message's
begins (the trace is well-chunked: no pipelining across messages). -/
theorem pipeline_in_order_no_pipelining (mb : Mailbox)
    (sender subject : String) :
    wellChunked (pollCycle mb sender subject).events = true ∧
      (∃ k, (pollCycle mb sender subject).events.filterMap fetchedHandle =
        (search mb sender subject).take k) ∧
      (∃ j, (pollCycle mb sender subject).outs.map Prod.fst =
        (search mb sender subject).take j) := by
  obtain ⟨w, k, hk⟩ := runMsgs_trace (search mb sender subject) mb
  obtain ⟨j, hj⟩ := runMsgs_outs_prefix (search mb sender subject) mb
  exact ⟨w, ⟨k, hk⟩, ⟨j, hj⟩⟩

/-! ## Pipeline claims about mark-before-emit and duplicates -/

/-- Splitting a trace splits the mark-before-emit check, threading the
marked set. -/
lemma marksPrecedeEmits_append (a : List Event) :
    ∀ (b : List Event) (ms : List Nat),
      marksPrecedeEmits (a ++ b) ms =
        (marksPrecedeEmits a ms && marksPrecedeEmits b (marksAfter a ms)) := by
  induction a with
  | nil => intro b ms; rfl
  | cons ev a ih =>
    intro b ms
    cases ev with
    | fetched h => exact ih b ms
    | extracted h => exact ih b ms
    | extractFailed h e => exact ih b ms
    | marked h => exact ih b (h :: ms)
    | emitted h l =>
      show (ms.contains h && marksPrecedeEmits (a ++ b) ms) =
        ((ms.contains h && marksPrecedeEmits a ms) &&
          marksPrecedeEmits b (marksAfter a ms))
      rw [ih b ms, Bool.and_assoc]

/-- Within one cycle, every emission is preceded by the mark of its own
handle. -/
lemma runMsgs_marks (hs : List Nat) :
    ∀ (mb : Mailbox) (ms : List Nat),
      marksPrecedeEmits (runMsgs mb hs).events ms = true := by
  induction hs with
  | nil => intro mb ms; rfl
  | cons h rest ih =>
    intro mb ms
    cases he : mb.entries[h]? with
    | none => simp only [runMsgs, he]; rfl
    | some e =>
      by_cases hff : e.fetchFails
      · simp only [runMsgs, he, hff, if_true]; rfl
      · cases hpr : parse_message_for_listing e.msg.parts with
        | error ex =>
          simp only [runMsgs, he, hff, Bool.false_eq_true, if_false, hpr]; rfl
        | ok l =>
          by_cases hsf : e.storeFails
          · simp only [runMsgs, he, hff, Bool.false_eq_true, if_false, hpr,
              hsf, if_true]; rfl
          · simp only [runMsgs, he, hff, Bool.false_eq_true, if_false, hpr,
              hsf]
            show ((h :: ms).contains h &&
              marksPrecedeEmits (runMsgs (markSeen mb h) rest).events
                (h :: ms)) = true
            rw [ih (markSeen mb h) (h :: ms)]
            simp

/-- `\Seen` flags survive whole runs. -/
lemma runCycles_seen_mono (sender subject : String) (n : Nat) :
    ∀ (mb : Mailbox) (x : Nat), seenAt mb x = some true →
      seenAt (runCycles sender subject mb n).mb x = some true := by
  induction n with
  | zero => intro mb x hx; exact hx
  | succ n ih =>
    intro mb x hx
    have hc := runMsgs_seen_mono (search mb sender subject) mb x hx
    cases herr : (pollCycle mb sender subject).err with
    | some er => simp only [runCycles, herr]; exact hc
    | none => simp only [runCycles, herr]; exact ih _ x hc

/-- Every handle emitted during a run was unseen when the run started. -/
lemma runCycles_outs_unseen (sender subject : String) (n : Nat) :
    ∀ (mb : Mailbox) (x : Nat),
      x ∈ (runCycles sender subject mb n).outs.map Prod.fst →
      seenAt mb x = some false := by
  induction n with
  | zero => intro mb x hx; cases hx
  | succ n ih =>
    intro mb x hx
    have hcyc : ∀ y, y ∈ (pollCycle mb sender subject).outs.map Prod.fst →
        seenAt mb y = some false := by
      intro y hy
      obtain ⟨k, hk⟩ := runMsgs_outs_prefix (search mb sender subject) mb
      rw [pollCycle] at hy
      rw [hk] at hy
      exact search_mem_unseen (List.take_subset k _ hy)
    cases herr : (pollCycle mb sender subject).err with
    | some er =>
      simp only [runCycles, herr] at hx
      exact hcyc x hx
    | none =>
      simp only [runCycles, herr] at hx
      rw [List.map_append] at hx
      rcases List.mem_append.mp hx with hx1 | hx2
      · exact hcyc x hx1
      · have hun : seenAt (pollCycle mb sender subject).mb x = some false :=
          ih _ x hx2
        have hlen : (pollCycle mb sender subject).mb.entries.length =
            mb.entries.length := runMsgs_length _ mb
        cases hme : mb.entries[x]? with
        | none =>
          exfalso
          have hxlen : mb.entries.length ≤ x := by
            rw [← List.getElem?_eq_none_iff]
            exact hme
          have hcnone : (pollCycle mb sender subject).mb.entries[x]? = none :=
            List.getElem?_eq_none (by rw [hlen]; exact hxlen)
          rw [seenAt, hcnone] at hun
          cases hun
        | some e =>
          by_cases hseen : e.seen
          · exfalso
            have hmbtrue : seenAt mb x = some true := by
              simp [seenAt, hme, hseen]
            have hctrue := runMsgs_seen_mono (search mb sender subject) mb x
              hmbtrue
            exact absurd (hun.symm.trans hctrue) (by simp)
          · have hbs : e.seen = false := by
              cases hb : e.seen
              · rfl
              · exact absurd hb hseen
            simp [seenAt, hme, hbs]

/-- No handle is emitted twice during a run. -/
lemma runCycles_nodup (sender subject : String) (n : Nat) :
    ∀ mb : Mailbox,
      ((runCycles sender subject mb n).outs.map Prod.fst).Nodup := by
  induction n with
  | zero => intro mb; exact List.nodup_nil
  | succ n ih =>
    intro mb
    have hcnodup : ((pollCycle mb sender subject).outs.map Prod.fst).Nodup := by
      obtain ⟨k, hk⟩ := runMsgs_outs_prefix (search mb sender subject) mb
      rw [pollCycle, hk]
      exact List.Nodup.sublist (List.take_sublist k _)
        (search_nodup mb sender subject)
    cases herr : (pollCycle mb sender subject).err with
    | some er => simp only [runCycles, herr]; exact hcnodup
    | none =>
      simp only [runCycles, herr]
      rw [List.map_append, List.nodup_append]
      refine ⟨hcnodup, ih _, ?_⟩
      intro x hx1 hx2
      have h1 : seenAt (pollCycle mb sender subject).mb x = some true :=
        runMsgs_outs_seen (search mb sender subject) mb x hx1
      have h2 : seenAt (pollCycle mb sender subject).mb x = some false :=
        runCycles_outs_unseen sender subject n _ x hx2
      exact absurd (h1.symm.trans h2) (by simp)

/-- Every emission of a run is preceded by its own mark. -/
lemma runCycles_marks (sender subject : String) (n : Nat) :
    ∀ (mb : Mailbox) (ms : List Nat),
      marksPrecedeEmits (runCycles sender subject mb n).events ms = true := by
  induction n with
  | zero => intro mb ms; rfl
  | succ n ih =>
    intro mb ms
    cases herr : (pollCycle mb sender subject).err with
    | some er =>
      simp only [runCycles, herr]
      exact runMsgs_marks (search mb sender subject) mb ms
    | none =>
      simp only [runCycles, herr]
      have h1 : marksPrecedeEmits (pollCycle mb sender subject).events ms =
          true := runMsgs_marks (search mb sender subject) mb ms
      have h2 := ih (pollCycle mb sender subject).mb
        (marksAfter (pollCycle mb sender subject).events ms)
      rw [marksPrecedeEmits_append, h1, h2]
      rfl

/-- C6: in every run, a listing is emitted only after the `\Seen` store for
its source message has succeeded (every `emitted` event's handle was
`marked` earlier in the trace), and no source message's listing is emitted
more than once within the run. -/
theorem pipeline_mark_before_emit_no_dup (mb : Mailbox)
    (sender subject : String) (n : Nat) :
    marksPrecedeEmits (runCycles sender subject mb n).events [] = true ∧
      ((runCycles sender subject mb n).outs.map Prod.fst).Nodup :=
  ⟨runCycles_marks sender subject n mb [], runCycles_nodup sender subject n mb⟩

end ZillowBot
